import Mathlib

/-!
Verification of the compatibility-matrix calibration tool
(`CompatibilityOptimizer` in the source).

The numeric model uses `ℚ` for matrix entries, scores and penalties.
Matrices are lists of rows; an out-of-range read yields `0`, mirroring the
source's tolerant `getComb` accessor.  Identity indices that may be absent
(`null`/`undefined` in the source) are modelled with `Option ℕ`, and the
optional flat bonus with `Option ℚ`.  The random source `Math.random()` is
modelled as a stream `g : ℕ → ℚ` consumed at an explicit cursor carried in
the optimizer state, so every run is a pure function of the stream.
-/

namespace AffinityTool

/-- A compatibility matrix: rows of rational entries. -/
abbrev Matrix' := List (List ℚ)

/-- An observation record, as stored by `SolverData` and consumed by the
optimizer: seven (possibly absent) identity references, two bonus counts,
an optional flat bonus, and a tier label. -/
structure Obs where
  childId : Option ℕ
  f : Option ℕ
  ff : Option ℕ
  fm : Option ℕ
  m : Option ℕ
  mf : Option ℕ
  mm : Option ℕ
  s3 : ℚ
  s2 : ℚ
  noble : Option ℚ
  correctSymbol : String
deriving DecidableEq

/-- Result of `evaluateError`: total penalty and contradiction count. -/
structure EvalResult where
  penalty : ℚ
  contradictions : ℕ
deriving DecidableEq

/-- Read one matrix cell, defaulting to `0` when the row or the cell is
out of range (the source tolerates sparse matrices this way). -/
def getCell (mat : Matrix') (r c : ℕ) : ℚ :=
  (mat.getD r []).getD c 0

/-- Write one matrix cell; out-of-range writes are no-ops (`List.set`
semantics). -/
def setCell (mat : Matrix') (r c : ℕ) (v : ℚ) : Matrix' :=
  mat.set r ((mat.getD r []).set c v)

/-- The accessor `getComb(youngerIdx, olderIdx, currentMatrix)` from the source: `0`
when either index is absent, `0` when the row does not exist, and the
cell value (defaulting to `0`) otherwise. -/
def getComb (youngerIdx olderIdx : Option ℕ) (currentMatrix : Matrix') : ℚ :=
  match youngerIdx, olderIdx with
  | none, _ => 0
  | _, none => 0
  | some y, some o =>
    match currentMatrix.get? y with
    | none => 0
    | some row => (row.get? o).getD 0

/-- The function `calculateScore` from the source: returns `0` if any of the seven
identity arguments is absent; otherwise sums the seven combination terms,
the fixed base `224`, the bonus `s2*5 + s3*12.5`, and the optional
`noble` bonus (defaulting to `0`). -/
def calculateScore (childId f ff fm m mf mm : Option ℕ) (s3 s2 : ℚ)
    (noble : Option ℚ) (matchMatrix : Matrix') : ℚ :=
  if childId = none ∨ f = none ∨ ff = none ∨ fm = none ∨
      m = none ∨ mf = none ∨ mm = none then 0
  else
    getComb childId f matchMatrix
      + min (getComb f ff matchMatrix) (getComb childId ff matchMatrix)
      + min (getComb f fm matchMatrix) (getComb childId fm matchMatrix)
      + getComb childId m matchMatrix
      + min (getComb m mf matchMatrix) (getComb childId mf matchMatrix)
      + min (getComb m mm matchMatrix) (getComb childId mm matchMatrix)
      + getComb f m matchMatrix
      + 224 + (s2 * 5 + s3 * (12.5 : ℚ)) + noble.getD 0

/-- The static `symbolRanges` table mapping each of the six tier symbols
to its inclusive score interval; unknown symbols have no range. -/
def symbolRanges (s : String) : Option (ℚ × ℚ) :=
  if s = "👑" then some (660, 9999)
  else if s = "☆" then some (614, 659)
  else if s = "◎" then some (490, 613)
  else if s = "○" then some (374, 489)
  else if s = "△" then some (255, 373)
  else if s = "×" then some (0, 254)
  else none

/-- The classifier `getSymbol` from the source: descending-threshold tier lookup. -/
def getSymbol (score : ℚ) : String :=
  if score ≥ 660 then "👑"
  else if score ≥ 614 then "☆"
  else if score ≥ 490 then "◎"
  else if score ≥ 374 then "○"
  else if score ≥ 255 then "△"
  else "×"

/-- One observation's contribution to `evaluateError`: the body of the
source's loop.  The crown symbol gets lower-bound-only handling; other
symbols use their range, and an unknown symbol contributes nothing. -/
def obsContribution (mat : Matrix') (o : Obs) : ℚ × ℕ :=
  let score := calculateScore o.childId o.f o.ff o.fm o.m o.mf o.mm
    o.s3 o.s2 o.noble mat
  if o.correctSymbol = "👑" then
    if score < 660 then ((660 - score) ^ 2, 1) else (0, 0)
  else
    match symbolRanges o.correctSymbol with
    | none => (0, 0)
    | some range =>
      if score < range.1 then ((range.1 - score) ^ 2, 1)
      else if score > range.2 then ((score - range.2) ^ 2, 1)
      else (0, 0)

/-- Accumulation step of `evaluateError`'s loop. -/
def evalStep (mat : Matrix') (acc : EvalResult) (o : Obs) : EvalResult :=
  { penalty := acc.penalty + (obsContribution mat o).1,
    contradictions := acc.contradictions + (obsContribution mat o).2 }

/-- The evaluator `evaluateError` from the source: fold the per-observation
contributions over the observation list. -/
def evaluateError (mat : Matrix') (observations : List Obs) : EvalResult :=
  observations.foldl (evalStep mat) ⟨0, 0⟩

/-- The expression `Math.floor(q * n)` as used for uniform index selection. -/
def floorIdx (q : ℚ) (n : ℕ) : ℕ :=
  (Int.floor (q * (n : ℚ))).toNat

/-- The flag `isPhase1 && priorityBloodlines.length > 0` from the source:
priority biasing is active in the first half of the iterations when a
non-empty priority list was supplied. -/
def usePriority (i iterations : ℕ) (pb : List ℕ) : Bool :=
  decide ((i : ℚ) < (iterations : ℚ) * (0.5 : ℚ)) && decide (0 < pb.length)

/-- Cell selection for one iteration.  Consumes random samples from the
stream `g` starting at cursor `k`; returns the row, the column and the
new cursor.  With priority biasing active and a first sample below
`0.8`, one coordinate is pinned to a random element of the priority
list; otherwise both coordinates are uniform. -/
def selectCell (g : ℕ → ℚ) (k : ℕ) (numRows numCols : ℕ)
    (up : Bool) (pb : List ℕ) : ℕ × ℕ × ℕ :=
  if up then
    if g k < (0.8 : ℚ) then
      let pIdx := pb.getD (floorIdx (g (k + 1)) pb.length) 0
      if g (k + 2) < (0.5 : ℚ) then
        (pIdx, floorIdx (g (k + 3)) numCols, k + 4)
      else
        (floorIdx (g (k + 3)) numRows, pIdx, k + 4)
    else
      (floorIdx (g (k + 1)) numRows, floorIdx (g (k + 2)) numCols, k + 3)
  else
    (floorIdx (g k) numRows, floorIdx (g (k + 1)) numCols, k + 2)

/-- The perturbation and motion-limit block of the source's loop body:
clamp the proposed value to `≥ 0`, then either reject the move (`none`,
the source's `continue`) when it moves further outside the window
`[max(0, base - 20), base + 20]` than the current value, or return the
(possibly boundary-clamped) value to write. -/
def proposeValue (originalValue baseValue change : ℚ) : Option ℚ :=
  let newValue0 := originalValue + change
  let newValue1 := if newValue0 < 0 then 0 else newValue0
  let minLimit := if baseValue - 20 < 0 then 0 else baseValue - 20
  let maxLimit := baseValue + 20
  if newValue1 < minLimit ∧ newValue1 < originalValue then none
  else if newValue1 > maxLimit ∧ newValue1 > originalValue then none
  else
    let nv2 := if newValue1 < minLimit then minLimit else newValue1
    some (if nv2 > maxLimit then maxLimit else nv2)

/-- The optimizer's loop state: working matrix and its evaluation, best
matrix and its evaluation, the random-stream cursor, and the list of
progress events emitted so far (`onProgress` invocations, recorded as
`(i, iterations, currentEval)` triples). -/
structure OptState where
  currentMatrix : Matrix'
  currentEval : EvalResult
  bestMatrix : Matrix'
  bestEval : EvalResult
  k : ℕ
  log : List (ℕ × ℕ × EvalResult)
deriving DecidableEq

/-- The acceptance block of the loop body: write `newValue` into the
cell, re-evaluate, keep the move when the new penalty does not exceed
the current one (snapshotting the best when it strictly improves), and
otherwise revert the single cell to its pre-step value. -/
def acceptStep (obs : List Obs) (r c : ℕ) (newValue originalValue : ℚ)
    (k2 : ℕ) (st : OptState) : OptState :=
  if (evaluateError (setCell st.currentMatrix r c newValue) obs).penalty
      ≤ st.currentEval.penalty then
    if (evaluateError (setCell st.currentMatrix r c newValue) obs).penalty
        < st.bestEval.penalty then
      { currentMatrix := setCell st.currentMatrix r c newValue,
        currentEval := evaluateError (setCell st.currentMatrix r c newValue) obs,
        bestMatrix := setCell st.currentMatrix r c newValue,
        bestEval := evaluateError (setCell st.currentMatrix r c newValue) obs,
        k := k2, log := st.log }
    else
      { currentMatrix := setCell st.currentMatrix r c newValue,
        currentEval := evaluateError (setCell st.currentMatrix r c newValue) obs,
        bestMatrix := st.bestMatrix, bestEval := st.bestEval, k := k2,
        log := st.log }
  else
    { currentMatrix := setCell (setCell st.currentMatrix r c newValue) r c
        originalValue,
      currentEval := st.currentEval, bestMatrix := st.bestMatrix,
      bestEval := st.bestEval, k := k2, log := st.log }

/-- The progress checkpoint at the end of the loop body: when the
iteration index is divisible by 50 and a callback was supplied, record
an `onProgress(i, iterations, currentEval)` event. -/
def applyProgress (iterations : ℕ) (hasCb : Bool) (i : ℕ)
    (st : OptState) : OptState :=
  if i % 50 = 0 ∧ hasCb then
    { st with log := st.log ++ [(i, iterations, st.currentEval)] }
  else st

/-- The loop body once the cell `(r, c)` and the post-selection cursor
`k1` are fixed: draw the sign, propose a value under the motion limit
(a rejected proposal is the source's `continue`, which also skips the
progress checkpoint), then accept or revert, then the progress
checkpoint.  `originalValue` in the source is `getCell st.currentMatrix
r c`, read before the write. -/
def stepBody (orig : Matrix') (obs : List Obs) (iterations : ℕ)
    (stepSize : ℚ) (g : ℕ → ℚ) (hasCb : Bool) (i : ℕ) (st : OptState)
    (r c k1 : ℕ) : OptState :=
  match proposeValue (getCell st.currentMatrix r c) (getCell orig r c)
      ((if g k1 < (0.5 : ℚ) then (-1 : ℚ) else 1) * stepSize) with
  | none => { st with k := k1 + 1 }
  | some newValue =>
    applyProgress iterations hasCb i
      (acceptStep obs r c newValue (getCell st.currentMatrix r c)
        (k1 + 1) st)

/-- One full iteration of the optimizer's loop, directly following the
source: select a cell using the random stream, then run the body on it. -/
def stepFull (orig : Matrix') (obs : List Obs) (iterations : ℕ)
    (stepSize : ℚ) (pb : List ℕ) (g : ℕ → ℚ) (hasCb : Bool) (i : ℕ)
    (st : OptState) : OptState :=
  stepBody orig obs iterations stepSize g hasCb i st
    (selectCell g st.k st.currentMatrix.length
      (st.currentMatrix.getD 0 []).length (usePriority i iterations pb) pb).1
    (selectCell g st.k st.currentMatrix.length
      (st.currentMatrix.getD 0 []).length (usePriority i iterations pb) pb).2.1
    (selectCell g st.k st.currentMatrix.length
      (st.currentMatrix.getD 0 []).length (usePriority i iterations pb) pb).2.2

/-- Run the first `n` iterations of the loop from a given state. -/
def optimizeAux (orig : Matrix') (obs : List Obs) (iterations : ℕ)
    (stepSize : ℚ) (pb : List ℕ) (g : ℕ → ℚ) (hasCb : Bool)
    (st0 : OptState) (n : ℕ) : OptState :=
  (List.range n).foldl
    (fun st i => stepFull orig obs iterations stepSize pb g hasCb i st) st0

/-- The loop's initial state: working and best matrices are copies of
the optimizer's retained matrix, both evaluated once. -/
def initState (startMatrix : Matrix') (obs : List Obs) : OptState :=
  { currentMatrix := startMatrix,
    currentEval := evaluateError startMatrix obs,
    bestMatrix := startMatrix,
    bestEval := evaluateError startMatrix obs,
    k := 0, log := [] }

/-- What `optimize` returns: the best matrix, its evaluation, and the
progress events that were emitted. -/
structure OptimizeResult where
  matrix : Matrix'
  eval : EvalResult
  events : List (ℕ × ℕ × EvalResult)
deriving DecidableEq

/-- The function `optimize` from the source.  `orig` is the construction-time
`originalMatrix` (reference for the motion limit), `startMatrix` the
optimizer's retained working matrix at call time; the random source is
the stream `g`, and `hasCb` records whether an `onProgress` callback
was supplied. -/
def optimize (orig startMatrix : Matrix') (obs : List Obs)
    (iterations : ℕ) (stepSize : ℚ) (pb : List ℕ) (g : ℕ → ℚ)
    (hasCb : Bool) : OptimizeResult :=
  let stF := optimizeAux orig obs iterations stepSize pb g hasCb
    (initState startMatrix obs) iterations
  ⟨stF.bestMatrix, stF.bestEval, stF.log⟩

/-! ### List-access helper lemmas -/

theorem listGetD_set_self {α : Type} (l : List α) (i : ℕ) (a d : α)
    (h : i < l.length) : (l.set i a).getD i d = a := by
  simp [List.getD_eq_getElem?_getD, List.getElem?_set_self h]

theorem listGetD_set_ne {α : Type} (l : List α) (i j : ℕ) (a d : α)
    (h : i ≠ j) : (l.set i a).getD j d = l.getD j d := by
  simp [List.getD_eq_getElem?_getD, List.getElem?_set_ne h]

theorem listSet_getD_self {α : Type} :
    ∀ (l : List α) (i : ℕ) (d : α), i < l.length → l.set i (l.getD i d) = l
  | [], i, d, h => by simp at h
  | a :: l, 0, d, _ => by simp
  | a :: l, i + 1, d, h => by
    simp only [List.set, List.getD_cons_succ]
    rw [listSet_getD_self l i d (by simpa using h)]

/-- Writing the read-back value of an in-range cell is the identity. -/
theorem setCell_getCell_self (mat : Matrix') (r c : ℕ)
    (hr : r < mat.length) (hc : c < (mat.getD r []).length) :
    setCell mat r c (getCell mat r c) = mat := by
  unfold setCell getCell
  rw [listSet_getD_self _ _ _ hc, listSet_getD_self _ _ _ hr]

/-- Reading back an in-range written cell gives the written value. -/
theorem getCell_setCell_same (mat : Matrix') (r c : ℕ) (v : ℚ)
    (hr : r < mat.length) (hc : c < (mat.getD r []).length) :
    getCell (setCell mat r c v) r c = v := by
  unfold getCell setCell
  rw [listGetD_set_self _ _ _ _ hr, listGetD_set_self _ _ _ _ hc]

/-- A write at one position leaves every other position unchanged. -/
theorem getCell_setCell_ne (mat : Matrix') (r c r' c' : ℕ) (v : ℚ)
    (h : ¬(r' = r ∧ c' = c)) :
    getCell (setCell mat r c v) r' c' = getCell mat r' c' := by
  unfold getCell setCell
  by_cases hr : r' = r
  · subst hr
    have hc : c ≠ c' := fun hc => h ⟨rfl, hc.symm⟩
    by_cases hrl : r' < mat.length
    · rw [listGetD_set_self _ _ _ _ hrl, listGetD_set_ne _ _ _ _ _ hc]
    · rw [List.set_eq_of_length_le (le_of_not_lt hrl)]
  · rw [listGetD_set_ne _ _ _ _ _ (fun he => hr he.symm)]

/-- An out-of-range write is a no-op. -/
theorem setCell_oob (mat : Matrix') (r c : ℕ) (v : ℚ)
    (h : ¬(r < mat.length ∧ c < (mat.getD r []).length)) :
    setCell mat r c v = mat := by
  unfold setCell
  by_cases hr : r < mat.length
  · have hc : ¬ c < (mat.getD r []).length := fun hc => h ⟨hr, hc⟩
    rw [List.set_eq_of_length_le (le_of_not_lt hc), listSet_getD_self _ _ _ hr]
  · exact List.set_eq_of_length_le (le_of_not_lt hr)

/-- Writes preserve the matrix's row count. -/
theorem setCell_length (mat : Matrix') (r c : ℕ) (v : ℚ) :
    (setCell mat r c v).length = mat.length := by
  unfold setCell; exact List.length_set ..

/-! ### Decomposition of `evaluateError` into per-observation
contributions -/

theorem foldl_evalStep (mat : Matrix') :
    ∀ (l : List Obs) (acc : EvalResult),
      l.foldl (evalStep mat) acc =
        ⟨acc.penalty + (evaluateError mat l).penalty,
         acc.contradictions + (evaluateError mat l).contradictions⟩ := by
  intro l
  induction l with
  | nil => intro acc; simp [evaluateError]
  | cons o l ih =>
    intro acc
    show (l.foldl (evalStep mat) (evalStep mat acc o)) = _
    rw [ih (evalStep mat acc o)]
    have h2 : evaluateError mat (o :: l)
        = l.foldl (evalStep mat) (evalStep mat ⟨0, 0⟩ o) := rfl
    rw [h2, ih (evalStep mat ⟨0, 0⟩ o)]
    simp only [evalStep, EvalResult.mk.injEq]
    constructor <;> ring

theorem evaluateError_nil (mat : Matrix') : evaluateError mat [] = ⟨0, 0⟩ :=
  rfl

theorem evaluateError_cons (mat : Matrix') (o : Obs) (l : List Obs) :
    evaluateError mat (o :: l) =
      ⟨(obsContribution mat o).1 + (evaluateError mat l).penalty,
       (obsContribution mat o).2 + (evaluateError mat l).contradictions⟩ := by
  show (o :: l).foldl (evalStep mat) ⟨0, 0⟩ = _
  rw [List.foldl_cons, foldl_evalStep]
  simp [evalStep]

theorem evaluateError_append (mat : Matrix') (l1 l2 : List Obs) :
    evaluateError mat (l1 ++ l2) =
      ⟨(evaluateError mat l1).penalty + (evaluateError mat l2).penalty,
       (evaluateError mat l1).contradictions
         + (evaluateError mat l2).contradictions⟩ := by
  show (l1 ++ l2).foldl (evalStep mat) ⟨0, 0⟩ = _
  rw [List.foldl_append, foldl_evalStep]
  rfl

/-! ### C1: the score formula -/

/-- Reading `getComb` on two present indices is the tolerant matrix read. -/
theorem getComb_some (mat : Matrix') (a b : ℕ) :
    getComb (some a) (some b) mat = getCell mat a b := by
  unfold getComb getCell
  simp only [List.getD_eq_getElem?_getD, List.get?_eq_getElem?]
  cases mat[a]? with
  | none => simp
  | some row => simp

/-- C1.  For every matrix and argument tuple, `calculateScore` equals
`comb(child,f) + min(comb(f,ff), comb(child,ff)) + min(comb(f,fm),
comb(child,fm)) + comb(child,m) + min(comb(m,mf), comb(child,mf)) +
min(comb(m,mm), comb(child,mm)) + comb(f,m) + 224 + s2*5 + s3*12.5 +
noble` (defaulting to 0 when absent), where the combination reads
`matrix[a][b]` tolerantly (0 when a row or cell is missing); and the
score is exactly 0 whenever any of the seven identity arguments is
absent, regardless of the other inputs. -/
theorem score_formula (mat : Matrix') (child f ff fm m mf mm : Option ℕ)
    (s3 s2 : ℚ) (noble : Option ℚ) :
    ((child = none ∨ f = none ∨ ff = none ∨ fm = none ∨ m = none ∨
        mf = none ∨ mm = none) →
      calculateScore child f ff fm m mf mm s3 s2 noble mat = 0) ∧
    (∀ (cI fI ffI fmI mI mfI mmI : ℕ),
      calculateScore (some cI) (some fI) (some ffI) (some fmI) (some mI)
          (some mfI) (some mmI) s3 s2 noble mat =
        getCell mat cI fI
          + min (getCell mat fI ffI) (getCell mat cI ffI)
          + min (getCell mat fI fmI) (getCell mat cI fmI)
          + getCell mat cI mI
          + min (getCell mat mI mfI) (getCell mat cI mfI)
          + min (getCell mat mI mmI) (getCell mat cI mmI)
          + getCell mat fI mI
          + 224 + s2 * 5 + s3 * (12.5 : ℚ) + noble.getD 0) := by
  constructor
  · intro h
    unfold calculateScore
    rw [if_pos h]
  · intro cI fI ffI fmI mI mfI mmI
    unfold calculateScore
    rw [if_neg (by simp)]
    simp only [getComb_some]
    ring

/-- Witness for C1: with the father index absent the score is 0, and on
the concrete matrix `[[1, 2], [3, 4]]` with all identities 0 the
formula applies. -/
theorem score_formula_witness :
    calculateScore (some 0) none (some 0) (some 0) (some 0) (some 0)
        (some 0) 0 0 none [[1, 2], [3, 4]] = 0 ∧
    calculateScore (some 0) (some 0) (some 0) (some 0) (some 0) (some 0)
        (some 0) 0 0 none [[1, 2], [3, 4]] =
      getCell [[1, 2], [3, 4]] 0 0
        + min (getCell [[1, 2], [3, 4]] 0 0) (getCell [[1, 2], [3, 4]] 0 0)
        + min (getCell [[1, 2], [3, 4]] 0 0) (getCell [[1, 2], [3, 4]] 0 0)
        + getCell [[1, 2], [3, 4]] 0 0
        + min (getCell [[1, 2], [3, 4]] 0 0) (getCell [[1, 2], [3, 4]] 0 0)
        + min (getCell [[1, 2], [3, 4]] 0 0) (getCell [[1, 2], [3, 4]] 0 0)
        + getCell [[1, 2], [3, 4]] 0 0
        + 224 + 0 * 5 + 0 * (12.5 : ℚ) + Option.getD none 0 :=
  ⟨(score_formula [[1, 2], [3, 4]] (some 0) none (some 0) (some 0)
      (some 0) (some 0) (some 0) 0 0 none).1 (Or.inr (Or.inl rfl)),
   (score_formula [[1, 2], [3, 4]] (some 0) (some 0) (some 0) (some 0)
      (some 0) (some 0) (some 0) 0 0 none).2 0 0 0 0 0 0 0⟩

/-! ### C2: asymmetric crown handling -/

theorem obsContribution_crown (mat : Matrix') (o : Obs)
    (hsym : o.correctSymbol = "👑") :
    obsContribution mat o =
      if calculateScore o.childId o.f o.ff o.fm o.m o.mf o.mm
          o.s3 o.s2 o.noble mat < 660 then
        ((660 - calculateScore o.childId o.f o.ff o.fm o.m o.mf o.mm
          o.s3 o.s2 o.noble mat) ^ 2, 1)
      else (0, 0) := by
  unfold obsContribution
  rw [if_pos hsym]

/-- C2.  A crown-labelled observation contributes `(660 - score)^2` to
the penalty and `1` to the contradiction count when `score < 660`, and
contributes nothing at all when `score ≥ 660` (no upper-bound penalty
for the top tier). -/
theorem crown_contribution (mat : Matrix') (pre post : List Obs) (o : Obs)
    (hsym : o.correctSymbol = "👑") :
    (calculateScore o.childId o.f o.ff o.fm o.m o.mf o.mm
        o.s3 o.s2 o.noble mat < 660 →
      (evaluateError mat (pre ++ o :: post)).penalty =
        (evaluateError mat (pre ++ post)).penalty +
          (660 - calculateScore o.childId o.f o.ff o.fm o.m o.mf o.mm
            o.s3 o.s2 o.noble mat) ^ 2 ∧
      (evaluateError mat (pre ++ o :: post)).contradictions =
        (evaluateError mat (pre ++ post)).contradictions + 1) ∧
    (660 ≤ calculateScore o.childId o.f o.ff o.fm o.m o.mf o.mm
        o.s3 o.s2 o.noble mat →
      evaluateError mat (pre ++ o :: post) = evaluateError mat (pre ++ post)) := by
  have hdec := obsContribution_crown mat o hsym
  constructor
  · intro hlt
    rw [if_pos hlt] at hdec
    rw [evaluateError_append, evaluateError_append, evaluateError_cons, hdec]
    constructor
    · simp only []
      ring
    · simp only []
      ring
  · intro hge
    rw [if_neg (not_lt.mpr hge)] at hdec
    rw [evaluateError_append, evaluateError_append, evaluateError_cons, hdec]
    simp

/-- A concrete crown observation with all identities `0` used in the
C2 witness; on the matrix `[[0]]` it scores `224`. -/
def crownObs : Obs :=
  ⟨some 0, some 0, some 0, some 0, some 0, some 0, some 0, 0, 0, none, "👑"⟩

/-- Witness for C2: on `[[0]]` the crown observation scores `224 < 660`,
so it contributes `(660 - 224)^2` penalty and one contradiction. -/
theorem crown_contribution_witness :
    crownObs.correctSymbol = "👑" ∧
    ((evaluateError [[0]] ([] ++ crownObs :: [])).penalty =
      (evaluateError [[0]] ([] ++ [])).penalty +
        (660 - calculateScore crownObs.childId crownObs.f crownObs.ff
          crownObs.fm crownObs.m crownObs.mf crownObs.mm
          crownObs.s3 crownObs.s2 crownObs.noble [[0]]) ^ 2 ∧
    (evaluateError [[0]] ([] ++ crownObs :: [])).contradictions =
      (evaluateError [[0]] ([] ++ [])).contradictions + 1) :=
  ⟨rfl, (crown_contribution [[0]] [] [] crownObs rfl).1
    (by with_unfolding_all decide)⟩

/-! ### C8: unknown labels are silently skipped -/

theorem symbolRanges_unknown (s : String)
    (h : s ∉ (["👑", "☆", "◎", "○", "△", "×"] : List String)) :
    symbolRanges s = none := by
  simp only [List.mem_cons, List.not_mem_nil, or_false, not_or] at h
  obtain ⟨h1, h2, h3, h4, h5, h6⟩ := h
  unfold symbolRanges
  rw [if_neg h1, if_neg h2, if_neg h3, if_neg h4, if_neg h5, if_neg h6]

/-- C8.  An observation whose label is not one of the six known tier
symbols contributes 0 penalty and 0 contradictions: evaluating with it
in the list gives the same result as evaluating without it, and the
remaining observations are processed normally. -/
theorem unknown_symbol_skipped (mat : Matrix') (pre post : List Obs)
    (o : Obs)
    (hsym : o.correctSymbol ∉ (["👑", "☆", "◎", "○", "△", "×"] : List String)) :
    obsContribution mat o = (0, 0) ∧
    evaluateError mat (pre ++ o :: post) = evaluateError mat (pre ++ post) := by
  have hcrown : ¬ o.correctSymbol = "👑" := by
    intro he; exact hsym (by rw [he]; simp)
  have hzero : obsContribution mat o = (0, 0) := by
    unfold obsContribution
    rw [if_neg hcrown, symbolRanges_unknown _ hsym]
  refine ⟨hzero, ?_⟩
  rw [evaluateError_append, evaluateError_append, evaluateError_cons, hzero]
  simp

/-- A concrete observation with an unknown label for the C8 witness. -/
def unknownObs : Obs :=
  ⟨some 0, some 0, some 0, some 0, some 0, some 0, some 0, 0, 0, none, "?"⟩

/-- Witness for C8: the label `"?"` is unknown and the observation is
skipped. -/
theorem unknown_symbol_skipped_witness :
    ("?" : String) ∉ (["👑", "☆", "◎", "○", "△", "×"] : List String) ∧
    evaluateError [[0]] ([] ++ unknownObs :: []) = evaluateError [[0]] ([] ++ []) :=
  ⟨by decide,
   (unknown_symbol_skipped [[0]] [] [] unknownObs (by decide)).2⟩

/-! ### Loop-unrolling helpers for `optimize` -/

theorem optimizeAux_zero (orig : Matrix') (obs : List Obs)
    (iterations : ℕ) (stepSize : ℚ) (pb : List ℕ) (g : ℕ → ℚ)
    (hasCb : Bool) (st0 : OptState) :
    optimizeAux orig obs iterations stepSize pb g hasCb st0 0 = st0 := rfl

theorem optimizeAux_succ (orig : Matrix') (obs : List Obs)
    (iterations : ℕ) (stepSize : ℚ) (pb : List ℕ) (g : ℕ → ℚ)
    (hasCb : Bool) (st0 : OptState) (n : ℕ) :
    optimizeAux orig obs iterations stepSize pb g hasCb st0 (n + 1) =
      stepFull orig obs iterations stepSize pb g hasCb n
        (optimizeAux orig obs iterations stepSize pb g hasCb st0 n) := by
  unfold optimizeAux
  rw [List.range_succ, List.foldl_append]
  rfl

theorem optimizeAux_inv (P : OptState → Prop) (orig : Matrix')
    (obs : List Obs) (iterations : ℕ) (stepSize : ℚ) (pb : List ℕ)
    (g : ℕ → ℚ) (hasCb : Bool) (st0 : OptState)
    (hstep : ∀ i st, P st →
      P (stepFull orig obs iterations stepSize pb g hasCb i st))
    (h0 : P st0) :
    ∀ n, P (optimizeAux orig obs iterations stepSize pb g hasCb st0 n) := by
  intro n
  induction n with
  | zero => exact h0
  | succ n ih =>
    rw [optimizeAux_succ]
    exact hstep n _ ih

/-- Every property of all possible loop-body outcomes holds for the
full step, whatever cell the random stream selects. -/
theorem stepFull_of_stepBody (P : OptState → Prop) (orig : Matrix')
    (obs : List Obs) (iterations : ℕ) (stepSize : ℚ) (pb : List ℕ)
    (g : ℕ → ℚ) (hasCb : Bool) (i : ℕ) (st : OptState)
    (h : ∀ r c k1, P (stepBody orig obs iterations stepSize g hasCb i st r c k1)) :
    P (stepFull orig obs iterations stepSize pb g hasCb i st) := by
  unfold stepFull
  exact h _ _ _

theorem applyProgress_currentMatrix (iterations : ℕ) (hasCb : Bool)
    (i : ℕ) (st : OptState) :
    (applyProgress iterations hasCb i st).currentMatrix = st.currentMatrix := by
  unfold applyProgress; split <;> rfl

theorem applyProgress_currentEval (iterations : ℕ) (hasCb : Bool)
    (i : ℕ) (st : OptState) :
    (applyProgress iterations hasCb i st).currentEval = st.currentEval := by
  unfold applyProgress; split <;> rfl

theorem applyProgress_bestMatrix (iterations : ℕ) (hasCb : Bool)
    (i : ℕ) (st : OptState) :
    (applyProgress iterations hasCb i st).bestMatrix = st.bestMatrix := by
  unfold applyProgress; split <;> rfl

theorem applyProgress_bestEval (iterations : ℕ) (hasCb : Bool)
    (i : ℕ) (st : OptState) :
    (applyProgress iterations hasCb i st).bestEval = st.bestEval := by
  unfold applyProgress; split <;> rfl

/-! ### C7: zero iterations -/

/-- C7.  Calling `optimize` with `iterations = 0` returns the starting
matrix unchanged together with its initial evaluation. -/
theorem zero_iterations (orig start : Matrix') (obs : List Obs)
    (stepSize : ℚ) (pb : List ℕ) (g : ℕ → ℚ) (hasCb : Bool) :
    (optimize orig start obs 0 stepSize pb g hasCb).matrix = start ∧
    (optimize orig start obs 0 stepSize pb g hasCb).eval =
      evaluateError start obs :=
  ⟨rfl, rfl⟩

/-! ### C5: the tracked best is monotone -/

theorem stepBody_bestEval_le (orig : Matrix') (obs : List Obs)
    (iterations : ℕ) (stepSize : ℚ) (g : ℕ → ℚ) (hasCb : Bool) (i : ℕ)
    (st : OptState) (r c k1 : ℕ) :
    (stepBody orig obs iterations stepSize g hasCb i st r c k1).bestEval.penalty
      ≤ st.bestEval.penalty := by
  unfold stepBody
  split
  · exact le_refl _
  · rw [applyProgress_bestEval]
    unfold acceptStep
    split
    · split
      · next hlt => exact le_of_lt hlt
      · exact le_refl _
    · exact le_refl _

theorem stepFull_bestEval_le (orig : Matrix') (obs : List Obs)
    (iterations : ℕ) (stepSize : ℚ) (pb : List ℕ) (g : ℕ → ℚ)
    (hasCb : Bool) (i : ℕ) (st : OptState) :
    (stepFull orig obs iterations stepSize pb g hasCb i st).bestEval.penalty
      ≤ st.bestEval.penalty :=
  stepFull_of_stepBody (fun s => s.bestEval.penalty ≤ st.bestEval.penalty)
    orig obs iterations stepSize pb g hasCb i st
    (fun r c k1 => stepBody_bestEval_le orig obs iterations stepSize g hasCb
      i st r c k1)

/-- C5.  The tracked `bestEval.penalty` never increases from one
iteration to the next, and the evaluation returned by `optimize` has
penalty at most that of the starting matrix. -/
theorem best_penalty_monotone (orig start : Matrix') (obs : List Obs)
    (iterations : ℕ) (stepSize : ℚ) (pb : List ℕ) (g : ℕ → ℚ)
    (hasCb : Bool) :
    (∀ n : ℕ,
      (optimizeAux orig obs iterations stepSize pb g hasCb
        (initState start obs) (n + 1)).bestEval.penalty ≤
      (optimizeAux orig obs iterations stepSize pb g hasCb
        (initState start obs) n).bestEval.penalty) ∧
    (optimize orig start obs iterations stepSize pb g hasCb).eval.penalty ≤
      (evaluateError start obs).penalty := by
  constructor
  · intro n
    rw [optimizeAux_succ]
    exact stepFull_bestEval_le orig obs iterations stepSize pb g hasCb n _
  · have key : ∀ n,
        (optimizeAux orig obs iterations stepSize pb g hasCb
          (initState start obs) n).bestEval.penalty ≤
        (evaluateError start obs).penalty := by
      intro n
      induction n with
      | zero => exact le_refl _
      | succ n ih =>
        rw [optimizeAux_succ]
        exact le_trans
          (stepFull_bestEval_le orig obs iterations stepSize pb g hasCb n _) ih
    exact key iterations

/-! ### C3: greedy acceptance with ties, single-cell revert, strict
best snapshot -/

theorem setCell_setCell (mat : Matrix') (r c : ℕ) (v w : ℚ) :
    setCell (setCell mat r c v) r c w = setCell mat r c w := by
  unfold setCell
  by_cases hr : r < mat.length
  · rw [listGetD_set_self _ _ _ _ hr, List.set_set, List.set_set]
  · rw [List.set_eq_of_length_le (le_of_not_lt hr),
      List.set_eq_of_length_le (le_of_not_lt hr)]

/-- Reverting an in-range cell to its pre-step value restores the
pre-step matrix. -/
theorem setCell_revert (mat : Matrix') (r c : ℕ) (v : ℚ)
    (hr : r < mat.length) (hc : c < (mat.getD r []).length) :
    setCell (setCell mat r c v) r c (getCell mat r c) = mat := by
  rw [setCell_setCell, setCell_getCell_self mat r c hr hc]

theorem stepFull_eq_stepBody (orig : Matrix') (obs : List Obs)
    (iterations : ℕ) (stepSize : ℚ) (pb : List ℕ) (g : ℕ → ℚ)
    (hasCb : Bool) (i : ℕ) (st : OptState) (r c k1 : ℕ)
    (hsel : selectCell g st.k st.currentMatrix.length
      (st.currentMatrix.getD 0 []).length (usePriority i iterations pb) pb
      = (r, c, k1)) :
    stepFull orig obs iterations stepSize pb g hasCb i st =
      stepBody orig obs iterations stepSize g hasCb i st r c k1 := by
  unfold stepFull
  rw [hsel]

/-- C3.  In every iteration whose (possibly clamped) proposal passes the
motion limit, after the value is written and the penalty recomputed, the
move is kept iff the new penalty is at most the current one (ties
accepted); otherwise exactly the written cell is reverted, restoring the
pre-step matrix; and on an accepted move the matrix is snapshotted as
the new best iff the new penalty is strictly below the best penalty. -/
theorem acceptance_rule (orig : Matrix') (obs : List Obs)
    (iterations : ℕ) (stepSize : ℚ) (pb : List ℕ) (g : ℕ → ℚ)
    (hasCb : Bool) (i : ℕ) (st : OptState) (r c k1 : ℕ) (v : ℚ)
    (hsel : selectCell g st.k st.currentMatrix.length
      (st.currentMatrix.getD 0 []).length (usePriority i iterations pb) pb
      = (r, c, k1))
    (hprop : proposeValue (getCell st.currentMatrix r c) (getCell orig r c)
      ((if g k1 < (0.5 : ℚ) then (-1 : ℚ) else 1) * stepSize) = some v)
    (hr : r < st.currentMatrix.length)
    (hc : c < (st.currentMatrix.getD r []).length) :
    ((evaluateError (setCell st.currentMatrix r c v) obs).penalty
        ≤ st.currentEval.penalty →
      (stepFull orig obs iterations stepSize pb g hasCb i st).currentMatrix
          = setCell st.currentMatrix r c v ∧
      (stepFull orig obs iterations stepSize pb g hasCb i st).currentEval
          = evaluateError (setCell st.currentMatrix r c v) obs ∧
      ((evaluateError (setCell st.currentMatrix r c v) obs).penalty
          < st.bestEval.penalty →
        (stepFull orig obs iterations stepSize pb g hasCb i st).bestMatrix
            = setCell st.currentMatrix r c v ∧
        (stepFull orig obs iterations stepSize pb g hasCb i st).bestEval
            = evaluateError (setCell st.currentMatrix r c v) obs) ∧
      (¬ (evaluateError (setCell st.currentMatrix r c v) obs).penalty
          < st.bestEval.penalty →
        (stepFull orig obs iterations stepSize pb g hasCb i st).bestMatrix
            = st.bestMatrix ∧
        (stepFull orig obs iterations stepSize pb g hasCb i st).bestEval
            = st.bestEval)) ∧
    (¬ (evaluateError (setCell st.currentMatrix r c v) obs).penalty
        ≤ st.currentEval.penalty →
      (stepFull orig obs iterations stepSize pb g hasCb i st).currentMatrix
          = st.currentMatrix ∧
      (stepFull orig obs iterations stepSize pb g hasCb i st).currentEval
          = st.currentEval ∧
      (stepFull orig obs iterations stepSize pb g hasCb i st).bestMatrix
          = st.bestMatrix ∧
      (stepFull orig obs iterations stepSize pb g hasCb i st).bestEval
          = st.bestEval) := by
  rw [stepFull_eq_stepBody orig obs iterations stepSize pb g hasCb i st
    r c k1 hsel]
  unfold stepBody
  rw [hprop]
  dsimp only
  constructor
  · intro hle
    unfold acceptStep
    rw [if_pos hle]
    by_cases hlt : (evaluateError (setCell st.currentMatrix r c v) obs).penalty
        < st.bestEval.penalty
    · rw [if_pos hlt]
      refine ⟨?_, ?_, fun _ => ⟨?_, ?_⟩, fun hn => absurd hlt hn⟩ <;>
        simp [applyProgress_currentMatrix, applyProgress_currentEval,
          applyProgress_bestMatrix, applyProgress_bestEval]
    · rw [if_neg hlt]
      refine ⟨?_, ?_, fun hl => absurd hl hlt, fun _ => ⟨?_, ?_⟩⟩ <;>
        simp [applyProgress_currentMatrix, applyProgress_currentEval,
          applyProgress_bestMatrix, applyProgress_bestEval]
  · intro hgt
    unfold acceptStep
    rw [if_neg hgt]
    refine ⟨?_, ?_, ?_, ?_⟩ <;>
      simp [applyProgress_currentMatrix, applyProgress_currentEval,
        applyProgress_bestMatrix, applyProgress_bestEval,
        setCell_revert st.currentMatrix r c v hr hc]

/-- Witness for C3: on the matrix `[[5]]` with no observations, the
zero random stream selects cell `(0,0)` and proposes `4`; the tie
`0 ≤ 0` is accepted, so the working matrix takes the written value and
its evaluation. -/
theorem acceptance_rule_witness :
    (stepFull [[5]] [] 1 1 [] (fun _ => 0) false 0
        (initState [[5]] [])).currentMatrix
      = setCell (initState ([[5]] : Matrix') []).currentMatrix 0 0 4 ∧
    (stepFull [[5]] [] 1 1 [] (fun _ => 0) false 0
        (initState [[5]] [])).currentEval
      = evaluateError
          (setCell (initState ([[5]] : Matrix') []).currentMatrix 0 0 4) [] ∧
    ((evaluateError
        (setCell (initState ([[5]] : Matrix') []).currentMatrix 0 0 4) []).penalty
        < (initState ([[5]] : Matrix') []).bestEval.penalty →
      (stepFull [[5]] [] 1 1 [] (fun _ => 0) false 0
          (initState [[5]] [])).bestMatrix
        = setCell (initState ([[5]] : Matrix') []).currentMatrix 0 0 4 ∧
      (stepFull [[5]] [] 1 1 [] (fun _ => 0) false 0
          (initState [[5]] [])).bestEval
        = evaluateError
            (setCell (initState ([[5]] : Matrix') []).currentMatrix 0 0 4) []) ∧
    (¬ (evaluateError
        (setCell (initState ([[5]] : Matrix') []).currentMatrix 0 0 4) []).penalty
        < (initState ([[5]] : Matrix') []).bestEval.penalty →
      (stepFull [[5]] [] 1 1 [] (fun _ => 0) false 0
          (initState [[5]] [])).bestMatrix
        = (initState ([[5]] : Matrix') []).bestMatrix ∧
      (stepFull [[5]] [] 1 1 [] (fun _ => 0) false 0
          (initState [[5]] [])).bestEval
        = (initState ([[5]] : Matrix') []).bestEval) :=
  (acceptance_rule [[5]] [] 1 1 [] (fun _ => 0) false 0
      (initState [[5]] []) 0 0 2 4
      (by with_unfolding_all decide)
      (by with_unfolding_all decide)
      (by with_unfolding_all decide)
      (by with_unfolding_all decide)).1
    (by with_unfolding_all decide)

/-! ### C4: the motion limit confines every cell that starts inside
its window -/

/-- Cell `(r, c)` of `mat` lies inside the motion-limit window
`[max(0, base - 20), base + 20]` around its original value `base`. -/
def inWindow (orig mat : Matrix') (r c : ℕ) : Prop :=
  (if getCell orig r c - 20 < 0 then 0 else getCell orig r c - 20)
      ≤ getCell mat r c ∧
  getCell mat r c ≤ getCell orig r c + 20

theorem clampZero_eq_max (x : ℚ) : (if x < 0 then 0 else x) = max 0 x := by
  rcases lt_or_le x 0 with h | h
  · rw [if_pos h, max_eq_left (le_of_lt h)]
  · rw [if_neg (not_lt.mpr h), max_eq_right h]

/-- A value the motion limit lets through is inside the window,
provided the current value is. -/
theorem proposeValue_some_window (ov bv ch v : ℚ)
    (h : proposeValue ov bv ch = some v)
    (h1 : (if bv - 20 < 0 then 0 else bv - 20) ≤ ov)
    (h2 : ov ≤ bv + 20) :
    (if bv - 20 < 0 then 0 else bv - 20) ≤ v ∧ v ≤ bv + 20 := by
  simp only [proposeValue] at h
  by_cases hlo : (if ov + ch < 0 then 0 else ov + ch)
      < (if bv - 20 < 0 then 0 else bv - 20)
  · rw [if_pos ⟨hlo, lt_of_lt_of_le hlo h1⟩] at h
    cases h
  · by_cases hhi : (if ov + ch < 0 then 0 else ov + ch) > bv + 20
    · rw [if_neg (fun hand => hlo hand.1),
        if_pos ⟨hhi, lt_of_le_of_lt h2 hhi⟩] at h
      cases h
    · rw [if_neg (fun hand => hlo hand.1),
        if_neg (fun hand => hhi hand.1), if_neg hlo, if_neg hhi] at h
      injection h with h
      subst h
      exact ⟨le_of_not_lt hlo, le_of_not_lt hhi⟩

/-- Writing with `setCell` at the cell's own current value is always the identity. -/
theorem setCell_getCell_self_total (mat : Matrix') (r c : ℕ) :
    setCell mat r c (getCell mat r c) = mat := by
  by_cases h : r < mat.length ∧ c < (mat.getD r []).length
  · exact setCell_getCell_self mat r c h.1 h.2
  · exact setCell_oob mat r c _ h

/-- The working and best matrices produced by the acceptance block are
each either the written matrix or the corresponding pre-step matrix. -/
theorem acceptStep_matrices (obs : List Obs) (r0 c0 : ℕ) (nv : ℚ)
    (k2 : ℕ) (st : OptState) :
    ((acceptStep obs r0 c0 nv (getCell st.currentMatrix r0 c0) k2
        st).currentMatrix = setCell st.currentMatrix r0 c0 nv ∨
     (acceptStep obs r0 c0 nv (getCell st.currentMatrix r0 c0) k2
        st).currentMatrix = st.currentMatrix) ∧
    ((acceptStep obs r0 c0 nv (getCell st.currentMatrix r0 c0) k2
        st).bestMatrix = setCell st.currentMatrix r0 c0 nv ∨
     (acceptStep obs r0 c0 nv (getCell st.currentMatrix r0 c0) k2
        st).bestMatrix = st.bestMatrix) := by
  unfold acceptStep
  split
  · split
    · exact ⟨Or.inl rfl, Or.inl rfl⟩
    · exact ⟨Or.inl rfl, Or.inr rfl⟩
  · constructor
    · right
      show setCell (setCell st.currentMatrix r0 c0 nv) r0 c0
        (getCell st.currentMatrix r0 c0) = st.currentMatrix
      rw [setCell_setCell, setCell_getCell_self_total]
    · exact Or.inr rfl

/-- Writing a motion-limit-approved value preserves the per-cell window
invariant for all cells that started inside their window. -/
theorem setCell_window (orig start : Matrix') (st : OptState)
    (r0 c0 : ℕ) (nv ch : ℚ)
    (hp : proposeValue (getCell st.currentMatrix r0 c0)
      (getCell orig r0 c0) ch = some nv)
    (hcur : ∀ r c, inWindow orig start r c →
      inWindow orig st.currentMatrix r c) :
    ∀ r c, inWindow orig start r c →
      inWindow orig (setCell st.currentMatrix r0 c0 nv) r c := by
  intro r c hco
  by_cases heq : r = r0 ∧ c = c0
  · obtain ⟨h1, h2⟩ := heq
    subst h1
    subst h2
    by_cases hin : r < st.currentMatrix.length ∧
        c < (st.currentMatrix.getD r []).length
    · unfold inWindow
      rw [getCell_setCell_same _ _ _ _ hin.1 hin.2]
      exact proposeValue_some_window _ _ _ _ hp (hcur r c hco).1
        (hcur r c hco).2
    · rw [inWindow, setCell_oob _ _ _ _ hin]
      exact hcur r c hco
  · rw [inWindow, getCell_setCell_ne _ _ _ _ _ _ heq]
    exact hcur r c hco

theorem stepBody_window (orig start : Matrix') (obs : List Obs)
    (iterations : ℕ) (stepSize : ℚ) (g : ℕ → ℚ) (hasCb : Bool) (i : ℕ)
    (st : OptState) (r0 c0 k1 : ℕ)
    (hcur : ∀ r c, inWindow orig start r c →
      inWindow orig st.currentMatrix r c)
    (hbest : ∀ r c, inWindow orig start r c →
      inWindow orig st.bestMatrix r c) :
    (∀ r c, inWindow orig start r c →
      inWindow orig (stepBody orig obs iterations stepSize g hasCb i st
        r0 c0 k1).currentMatrix r c) ∧
    (∀ r c, inWindow orig start r c →
      inWindow orig (stepBody orig obs iterations stepSize g hasCb i st
        r0 c0 k1).bestMatrix r c) := by
  unfold stepBody
  cases hp : proposeValue (getCell st.currentMatrix r0 c0)
      (getCell orig r0 c0)
      ((if g k1 < (0.5 : ℚ) then (-1 : ℚ) else 1) * stepSize) with
  | none => exact ⟨hcur, hbest⟩
  | some nv =>
    have hcm := setCell_window orig start st r0 c0 nv _ hp hcur
    obtain ⟨hc1, hb1⟩ := acceptStep_matrices obs r0 c0 nv (k1 + 1) st
    constructor
    · intro r c hco
      rw [applyProgress_currentMatrix]
      cases hc1 with
      | inl h => rw [h]; exact hcm r c hco
      | inr h => rw [h]; exact hcur r c hco
    · intro r c hco
      rw [applyProgress_bestMatrix]
      cases hb1 with
      | inl h => rw [h]; exact hcm r c hco
      | inr h => rw [h]; exact hbest r c hco

/-- C4.  For every run of `optimize` and every cell whose starting
value lies within `[max(0, base - 20), base + 20]` around its original
(construction-time) value `base`, the returned matrix stays within the
window: `|finalValue - base| ≤ 20`. -/
theorem motion_limit (orig start : Matrix') (obs : List Obs)
    (iterations : ℕ) (stepSize : ℚ) (pb : List ℕ) (g : ℕ → ℚ)
    (hasCb : Bool) (r c : ℕ)
    (hstart : max 0 (getCell orig r c - 20) ≤ getCell start r c ∧
      getCell start r c ≤ getCell orig r c + 20) :
    |getCell (optimize orig start obs iterations stepSize pb g
      hasCb).matrix r c - getCell orig r c| ≤ 20 := by
  have hW : inWindow orig start r c := by
    rw [inWindow, clampZero_eq_max]
    exact hstart
  have key := optimizeAux_inv
    (fun st => (∀ r' c', inWindow orig start r' c' →
        inWindow orig st.currentMatrix r' c') ∧
      (∀ r' c', inWindow orig start r' c' →
        inWindow orig st.bestMatrix r' c'))
    orig obs iterations stepSize pb g hasCb (initState start obs)
    (fun i st h => stepFull_of_stepBody
      (fun s => (∀ r' c', inWindow orig start r' c' →
          inWindow orig s.currentMatrix r' c') ∧
        (∀ r' c', inWindow orig start r' c' →
          inWindow orig s.bestMatrix r' c'))
      orig obs iterations stepSize pb g hasCb i st
      (fun r0 c0 k1 => stepBody_window orig start obs iterations stepSize
        g hasCb i st r0 c0 k1 h.1 h.2))
    ⟨fun _ _ h => h, fun _ _ h => h⟩
    iterations
  have hfin : inWindow orig
      (optimize orig start obs iterations stepSize pb g hasCb).matrix r c :=
    (key.2) r c hW
  rw [inWindow] at hfin
  have hlow : getCell orig r c - 20 ≤
      (if getCell orig r c - 20 < 0 then 0 else getCell orig r c - 20) := by
    split
    · linarith
    · exact le_refl _
  rw [abs_le]
  constructor
  · linarith [hfin.1]
  · linarith [hfin.2]

/-- Witness for C4: the cell `(0,0)` of `[[5]]` starts inside its
window and the returned matrix stays within 20 of the base value 5. -/
theorem motion_limit_witness :
    (max 0 (getCell [[5]] 0 0 - 20) ≤ getCell [[5]] 0 0 ∧
      getCell [[5]] 0 0 ≤ getCell [[5]] 0 0 + 20) ∧
    |getCell (optimize [[5]] [[5]] [] 1 1 [] (fun _ => 0) false).matrix 0 0
      - getCell [[5]] 0 0| ≤ 20 :=
  ⟨⟨by with_unfolding_all decide, by with_unfolding_all decide⟩,
   motion_limit [[5]] [[5]] [] 1 1 [] (fun _ => 0) false 0 0
     ⟨by with_unfolding_all decide, by with_unfolding_all decide⟩⟩

/-! ### C6: all matrix entries stay non-negative -/

/-- Every (tolerantly read) entry of the matrix is non-negative. -/
def nonnegMatrix (mat : Matrix') : Prop :=
  ∀ r c, 0 ≤ getCell mat r c

/-- A value the motion limit lets through is non-negative whenever the
cell's original value is: the zero clamp, the clamped lower limit and
the upper limit `base + 20` are all non-negative. -/
theorem proposeValue_some_nonneg (ov bv ch v : ℚ)
    (h : proposeValue ov bv ch = some v) (hbv : 0 ≤ bv) : 0 ≤ v := by
  simp only [proposeValue] at h
  by_cases hA : (if ov + ch < 0 then 0 else ov + ch)
        < (if bv - 20 < 0 then 0 else bv - 20) ∧
      (if ov + ch < 0 then 0 else ov + ch) < ov
  · rw [if_pos hA] at h
    cases h
  · rw [if_neg hA] at h
    by_cases hB : (if ov + ch < 0 then 0 else ov + ch) > bv + 20 ∧
        (if ov + ch < 0 then 0 else ov + ch) > ov
    · rw [if_pos hB] at h
      cases h
    · rw [if_neg hB] at h
      injection h with h
      subst h
      have hv1 : (0 : ℚ) ≤ (if ov + ch < 0 then 0 else ov + ch) := by
        split
        · exact le_refl _
        · next hx => exact le_of_not_lt hx
      have hmn : (0 : ℚ) ≤ (if bv - 20 < 0 then 0 else bv - 20) := by
        split
        · exact le_refl _
        · next hx => linarith [le_of_not_lt hx]
      set v1 := (if ov + ch < 0 then 0 else ov + ch)
      set mn := (if bv - 20 < 0 then 0 else bv - 20)
      split <;> split <;> linarith

theorem setCell_nonneg (st : OptState) (r0 c0 : ℕ) (nv : ℚ)
    (hnv : 0 ≤ nv) (hcur : nonnegMatrix st.currentMatrix) :
    nonnegMatrix (setCell st.currentMatrix r0 c0 nv) := by
  intro r c
  by_cases heq : r = r0 ∧ c = c0
  · obtain ⟨h1, h2⟩ := heq
    subst h1
    subst h2
    by_cases hin : r < st.currentMatrix.length ∧
        c < (st.currentMatrix.getD r []).length
    · rw [getCell_setCell_same _ _ _ _ hin.1 hin.2]
      exact hnv
    · rw [setCell_oob _ _ _ _ hin]
      exact hcur r c
  · rw [getCell_setCell_ne _ _ _ _ _ _ heq]
    exact hcur r c

theorem stepBody_nonneg (orig : Matrix') (obs : List Obs)
    (iterations : ℕ) (stepSize : ℚ) (g : ℕ → ℚ) (hasCb : Bool) (i : ℕ)
    (st : OptState) (r0 c0 k1 : ℕ) (horig : nonnegMatrix orig)
    (hcur : nonnegMatrix st.currentMatrix)
    (hbest : nonnegMatrix st.bestMatrix) :
    nonnegMatrix (stepBody orig obs iterations stepSize g hasCb i st
      r0 c0 k1).currentMatrix ∧
    nonnegMatrix (stepBody orig obs iterations stepSize g hasCb i st
      r0 c0 k1).bestMatrix := by
  unfold stepBody
  cases hp : proposeValue (getCell st.currentMatrix r0 c0)
      (getCell orig r0 c0)
      ((if g k1 < (0.5 : ℚ) then (-1 : ℚ) else 1) * stepSize) with
  | none => exact ⟨hcur, hbest⟩
  | some nv =>
    have hnv : 0 ≤ nv :=
      proposeValue_some_nonneg _ _ _ _ hp (horig r0 c0)
    have hcm := setCell_nonneg st r0 c0 nv hnv hcur
    obtain ⟨hc1, hb1⟩ := acceptStep_matrices obs r0 c0 nv (k1 + 1) st
    constructor
    · rw [applyProgress_currentMatrix]
      cases hc1 with
      | inl h => rw [h]; exact hcm
      | inr h => rw [h]; exact hcur
    · rw [applyProgress_bestMatrix]
      cases hb1 with
      | inl h => rw [h]; exact hcm
      | inr h => rw [h]; exact hbest

/-- C6.  If every entry of the original and starting matrices is
non-negative, then after every iteration the working and best matrices
are entrywise non-negative, and so is the matrix `optimize` returns. -/
theorem entries_nonneg (orig start : Matrix') (obs : List Obs)
    (iterations : ℕ) (stepSize : ℚ) (pb : List ℕ) (g : ℕ → ℚ)
    (hasCb : Bool) (horig : nonnegMatrix orig)
    (hstart : nonnegMatrix start) :
    (∀ n, nonnegMatrix (optimizeAux orig obs iterations stepSize pb g
        hasCb (initState start obs) n).currentMatrix ∧
      nonnegMatrix (optimizeAux orig obs iterations stepSize pb g hasCb
        (initState start obs) n).bestMatrix) ∧
    nonnegMatrix (optimize orig start obs iterations stepSize pb g
      hasCb).matrix := by
  have key := optimizeAux_inv
    (fun st => nonnegMatrix st.currentMatrix ∧ nonnegMatrix st.bestMatrix)
    orig obs iterations stepSize pb g hasCb (initState start obs)
    (fun i st h => stepFull_of_stepBody
      (fun s => nonnegMatrix s.currentMatrix ∧ nonnegMatrix s.bestMatrix)
      orig obs iterations stepSize pb g hasCb i st
      (fun r0 c0 k1 => stepBody_nonneg orig obs iterations stepSize g
        hasCb i st r0 c0 k1 horig h.1 h.2))
    ⟨hstart, hstart⟩
  exact ⟨key, (key iterations).2⟩

/-- Witness for C6: starting from `[[1]]` (non-negative everywhere),
the returned matrix's cell `(0,0)` is non-negative. -/
theorem entries_nonneg_witness :
    0 ≤ getCell (optimize [[1]] [[1]] [] 1 1 [] (fun _ => 0)
      false).matrix 0 0 :=
  (entries_nonneg [[1]] [[1]] [] 1 1 [] (fun _ => 0) false
    (by
      intro r c
      unfold getCell
      rcases r with _ | r
      · rcases c with _ | c
        · norm_num
        · simp
      · simp)
    (by
      intro r c
      unfold getCell
      rcases r with _ | r
      · rcases c with _ | c
        · norm_num
        · simp
      · simp)).2 0 0

/-! ### C9: the progress callback does not alter the outcome, and
events only occur at indices divisible by 50 -/

/-- Forget the progress-event log, keeping the algorithmic state. -/
def stripLog (st : OptState) : OptState :=
  { st with log := [] }

theorem applyProgress_stripLog (iterations : ℕ) (hasCb : Bool) (i : ℕ)
    (st : OptState) :
    stripLog (applyProgress iterations hasCb i st) =
      applyProgress iterations false i (stripLog st) := by
  unfold applyProgress stripLog
  split <;> simp

theorem acceptStep_stripLog (obs : List Obs) (r c : ℕ)
    (nv ov : ℚ) (k2 : ℕ) (st : OptState) :
    stripLog (acceptStep obs r c nv ov k2 st) =
      acceptStep obs r c nv ov k2 (stripLog st) := by
  unfold acceptStep
  dsimp only [stripLog]
  split
  · split <;> rfl
  · rfl

theorem stepBody_stripLog (orig : Matrix') (obs : List Obs)
    (iterations : ℕ) (stepSize : ℚ) (g : ℕ → ℚ) (hasCb : Bool) (i : ℕ)
    (st : OptState) (r c k1 : ℕ) :
    stripLog (stepBody orig obs iterations stepSize g hasCb i st r c k1) =
      stepBody orig obs iterations stepSize g false i (stripLog st) r c k1 := by
  obtain ⟨cm, ce, bm, be, k0, lg⟩ := st
  show stripLog (stepBody orig obs iterations stepSize g hasCb i
      ⟨cm, ce, bm, be, k0, lg⟩ r c k1) =
    stepBody orig obs iterations stepSize g false i
      ⟨cm, ce, bm, be, k0, []⟩ r c k1
  unfold stepBody
  dsimp only
  cases hp : proposeValue (getCell cm r c) (getCell orig r c)
      ((if g k1 < (0.5 : ℚ) then (-1 : ℚ) else 1) * stepSize) with
  | none => rfl
  | some nv =>
    dsimp only
    rw [applyProgress_stripLog, acceptStep_stripLog]
    rfl

theorem stepFull_stripLog (orig : Matrix') (obs : List Obs)
    (iterations : ℕ) (stepSize : ℚ) (pb : List ℕ) (g : ℕ → ℚ)
    (hasCb : Bool) (i : ℕ) (st : OptState) :
    stripLog (stepFull orig obs iterations stepSize pb g hasCb i st) =
      stepFull orig obs iterations stepSize pb g false i (stripLog st) := by
  unfold stepFull
  rw [stepBody_stripLog]
  rfl

theorem optimizeAux_stripLog (orig : Matrix') (obs : List Obs)
    (iterations : ℕ) (stepSize : ℚ) (pb : List ℕ) (g : ℕ → ℚ)
    (hasCb : Bool) (st0 : OptState) :
    ∀ n, stripLog (optimizeAux orig obs iterations stepSize pb g hasCb
        st0 n) =
      optimizeAux orig obs iterations stepSize pb g false (stripLog st0) n := by
  intro n
  induction n with
  | zero => rfl
  | succ n ih =>
    rw [optimizeAux_succ, optimizeAux_succ, stepFull_stripLog, ih]

theorem acceptStep_log (obs : List Obs) (r c : ℕ) (nv ov : ℚ)
    (k2 : ℕ) (st : OptState) :
    (acceptStep obs r c nv ov k2 st).log = st.log := by
  unfold acceptStep
  split
  · split <;> rfl
  · rfl

theorem applyProgress_log_all (iterations : ℕ) (hasCb : Bool) (i : ℕ)
    (st : OptState)
    (h : ∀ e ∈ st.log, e.1 % 50 = 0) :
    ∀ e ∈ (applyProgress iterations hasCb i st).log, e.1 % 50 = 0 := by
  unfold applyProgress
  split
  · next hcond =>
    intro e he
    rw [List.mem_append] at he
    cases he with
    | inl hin => exact h e hin
    | inr hin =>
      rw [List.mem_singleton] at hin
      rw [hin]
      exact hcond.1
  · exact h

/-- C9 (amended).  The matrix and evaluation returned by `optimize` are
identical whether a progress callback is supplied or not, and every
emitted progress event has an iteration index divisible by 50 (it fires
on those iterations whose move passes the motion-limit check). -/
theorem progress_callback_independent (orig start : Matrix')
    (obs : List Obs) (iterations : ℕ) (stepSize : ℚ) (pb : List ℕ)
    (g : ℕ → ℚ) (hasCb : Bool) :
    ((optimize orig start obs iterations stepSize pb g hasCb).matrix =
        (optimize orig start obs iterations stepSize pb g false).matrix ∧
      (optimize orig start obs iterations stepSize pb g hasCb).eval =
        (optimize orig start obs iterations stepSize pb g false).eval) ∧
    (∀ e ∈ (optimize orig start obs iterations stepSize pb g
        hasCb).events, e.1 % 50 = 0) := by
  have hstrip := optimizeAux_stripLog orig obs iterations stepSize pb g
    hasCb (initState start obs) iterations
  constructor
  · constructor
    · show (optimizeAux orig obs iterations stepSize pb g hasCb
          (initState start obs) iterations).bestMatrix = _
      have h1 : (stripLog (optimizeAux orig obs iterations stepSize pb g
          hasCb (initState start obs) iterations)).bestMatrix =
        (optimizeAux orig obs iterations stepSize pb g hasCb
          (initState start obs) iterations).bestMatrix := rfl
      rw [← h1, hstrip]
      rfl
    · show (optimizeAux orig obs iterations stepSize pb g hasCb
          (initState start obs) iterations).bestEval = _
      have h1 : (stripLog (optimizeAux orig obs iterations stepSize pb g
          hasCb (initState start obs) iterations)).bestEval =
        (optimizeAux orig obs iterations stepSize pb g hasCb
          (initState start obs) iterations).bestEval := rfl
      rw [← h1, hstrip]
      rfl
  · show ∀ e ∈ (optimizeAux orig obs iterations stepSize pb g hasCb
        (initState start obs) iterations).log, e.1 % 50 = 0
    refine optimizeAux_inv (fun st => ∀ e ∈ st.log, e.1 % 50 = 0)
      orig obs iterations stepSize pb g hasCb (initState start obs)
      ?_ (fun e he => absurd he (List.not_mem_nil e)) iterations
    intro i st h
    refine stepFull_of_stepBody (fun s => ∀ e ∈ s.log, e.1 % 50 = 0)
      orig obs iterations stepSize pb g hasCb i st ?_
    intro r c k1
    unfold stepBody
    cases hp : proposeValue (getCell st.currentMatrix r c)
        (getCell orig r c)
        ((if g k1 < (0.5 : ℚ) then (-1 : ℚ) else 1) * stepSize) with
    | none => exact h
    | some nv =>
      apply applyProgress_log_all
      rw [acceptStep_log]
      exact h

/-- Witness for C9 (amended): a one-iteration accepting run with a
callback emits the event `(0, 1, {0, 0})`, whose index is divisible by
50, and returns the same outcome as the callback-free run. -/
theorem progress_callback_independent_witness :
    ((0, 1, (⟨0, 0⟩ : EvalResult)) ∈
      (optimize [[5]] [[5]] [] 1 1 [] (fun _ => 0) true).events) ∧
    (0, 1, (⟨0, 0⟩ : EvalResult)).1 % 50 = 0 :=
  ⟨by with_unfolding_all decide,
   (progress_callback_independent [[5]] [[5]] [] 1 1 [] (fun _ => 0)
      true).2 (0, 1, ⟨0, 0⟩) (by with_unfolding_all decide)⟩

/-- Counterexample to C9 as stated: the claim says the progress
notification fires at every iteration index divisible by 50, including
iteration 0.  In this run a callback is supplied and iteration 0
executes, but its proposal (`30 - 25 = 5`, below the window lower limit
`10` and further from the window than the current value `30`) is
rejected by the motion limit; the source's `continue` skips the
progress checkpoint, so no event is emitted at iteration 0. -/
theorem progress_skipped_on_reject :
    (optimize [[30]] [[30]] [] 1 25 [] (fun _ => 0) true).events = [] := by
  with_unfolding_all decide

/-! ### C10: empty observation list -/

theorem acceptStep_nil (r c : ℕ) (nv ov : ℚ) (k2 : ℕ) (st : OptState)
    (hce : st.currentEval = ⟨0, 0⟩) (hbe : st.bestEval = ⟨0, 0⟩) :
    acceptStep [] r c nv ov k2 st =
      { currentMatrix := setCell st.currentMatrix r c nv,
        currentEval := ⟨0, 0⟩, bestMatrix := st.bestMatrix,
        bestEval := st.bestEval, k := k2, log := st.log } := by
  simp only [acceptStep, evaluateError_nil, hce, hbe]
  norm_num

/-- C10.  With an empty observation list every evaluation is
`{penalty 0, contradictions 0}`, every trial ties and none strictly
improves, so the best snapshot is never replaced: `optimize` returns
the starting matrix and the zero evaluation. -/
theorem empty_observations (orig start : Matrix') (iterations : ℕ)
    (stepSize : ℚ) (pb : List ℕ) (g : ℕ → ℚ) (hasCb : Bool) :
    (∀ mat : Matrix', evaluateError mat [] = ⟨0, 0⟩) ∧
    (optimize orig start [] iterations stepSize pb g hasCb).matrix = start ∧
    (optimize orig start [] iterations stepSize pb g hasCb).eval = ⟨0, 0⟩ := by
  refine ⟨fun _ => rfl, ?_⟩
  have key : ∀ n,
      (optimizeAux orig [] iterations stepSize pb g hasCb
        (initState start []) n).bestMatrix = start ∧
      (optimizeAux orig [] iterations stepSize pb g hasCb
        (initState start []) n).bestEval = ⟨0, 0⟩ ∧
      (optimizeAux orig [] iterations stepSize pb g hasCb
        (initState start []) n).currentEval = ⟨0, 0⟩ := by
    refine optimizeAux_inv
      (fun st => st.bestMatrix = start ∧ st.bestEval = ⟨0, 0⟩ ∧
        st.currentEval = ⟨0, 0⟩)
      orig [] iterations stepSize pb g hasCb (initState start [])
      ?_ ⟨rfl, rfl, rfl⟩
    intro i st h
    obtain ⟨hb, hbe, hce⟩ := h
    refine stepFull_of_stepBody
      (fun s => s.bestMatrix = start ∧ s.bestEval = ⟨0, 0⟩ ∧
        s.currentEval = ⟨0, 0⟩)
      orig [] iterations stepSize pb g hasCb i st ?_
    intro r c k1
    unfold stepBody
    split
    · exact ⟨hb, hbe, hce⟩
    · rw [acceptStep_nil _ _ _ _ _ _ hce hbe]
      refine ⟨?_, ?_, ?_⟩
      · rw [applyProgress_bestMatrix]; exact hb
      · rw [applyProgress_bestEval]; exact hbe
      · rw [applyProgress_currentEval]
  exact ⟨(key iterations).1, (key iterations).2.1⟩

end AffinityTool
